import Mathlib

/-!
Shallow embedding of the onionfilter prototype (urlfetch.py, filter.py)
and proofs of the specified properties.

Texts are modelled as `List Char` (ASCII); times as `Int` (units: days,
with lexicographic comparison of ISO UTC timestamps abstracted to the
order on `Int`); both SQLite tables are modelled as association lists
keyed by the url string.
-/

set_option autoImplicit false

namespace Onion

/-! ## Text utilities (Python `str.lower`, `str.strip`, `str.find`, `re` word boundaries) -/

/-- ASCII lower-casing, per character (models Python `str.lower` on ASCII text). -/
def lowerText (s : List Char) : List Char := s.map Char.toLower

/-- Python regex word character `\w` restricted to ASCII: `[a-zA-Z0-9_]`. -/
def isWordChar (c : Char) : Bool := c.isAlphanum || c = '_'

/-- Whether position `i` of `text` holds a word character (out of range counts as non-word). -/
def isWordAt (text : List Char) (i : Nat) : Bool :=
  match text[i]? with
  | some c => isWordChar c
  | none => false

/-- Whether the character before position `i` is a word character (start of text is non-word). -/
def prevIsWordAt (text : List Char) (i : Nat) : Bool :=
  match i with
  | 0 => false
  | j + 1 => isWordAt text j

/-- Regex `\b`: a word boundary sits at position `i` when the word-ness changes there. -/
def boundaryAt (text : List Char) (i : Nat) : Bool :=
  prevIsWordAt text i != isWordAt text i

/-- The pattern `pat` occurs literally in `text` at position `i`. -/
def occursAt (pat text : List Char) (i : Nat) : Bool :=
  (text.drop i).take pat.length = pat

/-- Embedding of `re.search(rf'\b{re.escape(kw)}\b', text, re.IGNORECASE)` (filter.py line 63):
some position carries the lower-cased keyword with word boundaries on both sides. -/
def wholeWordIC (kw text : List Char) : Bool :=
  (List.range (text.length + 1)).any fun i =>
    occursAt (lowerText kw) (lowerText text) i
      && boundaryAt text i && boundaryAt text (i + kw.length)

/-- First index at which `pat` occurs in `hay`, if any. -/
def firstOccur (pat hay : List Char) : Option Nat :=
  (List.range (hay.length + 1)).find? fun i => occursAt pat hay i

/-- Embedding of Python `hay.find(pat)`: leftmost occurrence index, `-1` when absent. -/
def pyFind (hay pat : List Char) : Int :=
  match firstOccur pat hay with
  | some i => (i : Int)
  | none => -1

/-- Python `str.strip()`: drop leading and trailing whitespace. -/
def pyStrip (s : List Char) : List Char :=
  ((s.dropWhile Char.isWhitespace).reverse.dropWhile Char.isWhitespace).reverse

/-! ## urlfetch.py: data model (onion_links table) -/

/-- Liveness status stored in the `status` column of `onion_links`. -/
inductive Status where
  | alive
  | dead
deriving DecidableEq, Repr

/-- One row of the `onion_links` table: status and nullable `last_seen`. -/
structure LinkRecord where
  status : Status
  lastSeen : Option Int
deriving DecidableEq, Repr

/-- The `onion_links` table: url (primary key) to record, as an association list. -/
abbrev LinkStore := List (String × LinkRecord)

/-- Keyed SELECT on the link store (first row with the given url). -/
def getRow : LinkStore → String → Option LinkRecord
  | [], _ => none
  | (k, v) :: t, url => if k = url then some v else getRow t url

/-- SQL UPDATE ... WHERE url = ?: rewrite every row keyed `url` through `f`. -/
def updateRows (store : LinkStore) (url : String) (f : LinkRecord → LinkRecord) : LinkStore :=
  store.map fun p => (p.1, if p.1 = url then f p.2 else p.2)

/-! ## urlfetch.py: liveness verifier (check_url, worker) -/

/-- Outcome of one HTTP probe: a response with a status code, or any raised
exception (connection/timeout/DNS). -/
inductive Outcome where
  | response (code : Nat)
  | failure
deriving DecidableEq, Repr

/-- Embedding of `check_url` (urlfetch.py lines 82-87): true iff a response
was received and its status code is < 500. -/
def check_url : Outcome → Bool
  | .response code => code < 500
  | .failure => false

/-- Body of the `worker` loop for a single url (urlfetch.py lines 96-112):
probe, then read-modify-write the url's row. On an existing row, an alive
probe overwrites status and `last_seen`; a dead probe overwrites only the
status. On a missing row, a fresh row is inserted with `last_seen` set only
when alive. -/
def workerStep (store : LinkStore) (now : Int) (url : String) (o : Outcome) : LinkStore :=
  let alive := check_url o
  match getRow store url with
  | some _ =>
      if alive then
        updateRows store url fun _ => { status := .alive, lastSeen := some now }
      else
        updateRows store url fun r => { status := .dead, lastSeen := r.lastSeen }
  | none =>
      store ++ [(url, { status := if alive then .alive else .dead,
                        lastSeen := if alive then some now else none })]

/-- One probe event: the run's timestamp, the probed url, and the probe outcome. -/
structure ProbeEvent where
  now : Int
  url : String
  outcome : Outcome

/-- A sequence of worker steps over a store. The thread pool processes a
deduplicated url set, so distinct urls commute; a sequential fold is the
faithful sequentialization. -/
def runWorker (store : LinkStore) (events : List ProbeEvent) : LinkStore :=
  events.foldl (fun s e => workerStep s e.now e.url e.outcome) store

/-! ## urlfetch.py: retention sweeper (clean_old_links) -/

/-- The DELETE predicate of `clean_old_links` (urlfetch.py lines 169-171):
status = 'dead' AND (last_seen IS NULL OR last_seen < cutoff). -/
def sweepPred (cutoff : Int) (r : LinkRecord) : Bool :=
  r.status = Status.dead &&
    (match r.lastSeen with
     | none => true
     | some t => t < cutoff)

/-- Embedding of `clean_old_links` (urlfetch.py lines 166-173): cutoff is
now minus the threshold; returns the store after the DELETE together with
the COUNT(*) taken over the same predicate (the number logged). -/
def clean_old_links (store : LinkStore) (now days : Int) : LinkStore × Nat :=
  let cutoff := now - days
  ((store.filter fun p => ! sweepPred cutoff p.2),
   (store.filter fun p => sweepPred cutoff p.2).length)

/-! ## urlfetch.py: address collector (regex scrape, cleanup, dedup) -/

/-- Host characters of the scrape pattern: the class `[a-zA-Z0-9\-\.]`. -/
def isHostChar (c : Char) : Bool := c.isAlphanum || c = '-' || c = '.'

/-- Path characters of the scrape pattern: the class `[^\s\"'<]`
(neither whitespace, double quote, single quote, nor a left angle bracket). -/
def isPathChar (c : Char) : Bool :=
  !(c.isWhitespace || c = '"' || c = Char.ofNat 39 || c = '<')

/-- Consume a literal at the head of `s`, returning the remainder. -/
def stripLit (lit s : List Char) : Option (List Char) :=
  if s.take lit.length = lit then some (s.drop lit.length) else none

/-- The scheme part `https?://` of the pattern, trying the greedy `s` first. -/
def stripScheme (s : List Char) : Option (Nat × List Char) :=
  match stripLit (("https://").toList) s with
  | some rest => some (8, rest)
  | none =>
      match stripLit (("http://").toList) s with
      | some rest => some (7, rest)
      | none => none

/-- Backtracking for `[a-zA-Z0-9\-\.]{10,60}` followed by `.onion`: try the
host length `k` downward (greedy) and stop below the minimum of 10. -/
def hostSearch (s : List Char) : Nat → Option Nat
  | 0 => none
  | k + 1 =>
      if k + 1 < 10 then none
      else if (s.drop (k + 1)).take 6 = ((".onion").toList) then some (k + 1)
      else hostSearch s k

/-- Length of a match of `https?://[a-zA-Z0-9\-\.]{10,60}\.onion(?:/[^\s\"'<]*)?`
starting exactly at the head of `s` (urlfetch.py line 64), if any. -/
def matchOnionAt (s : List Char) : Option Nat :=
  match stripScheme s with
  | none => none
  | some (schemeLen, rest) =>
      match hostSearch rest (min (rest.takeWhile isHostChar).length 60) with
      | none => none
      | some k =>
          let afterHost := rest.drop (k + 6)
          let pathLen :=
            match afterHost with
            | [] => 0
            | c :: tail => if c = '/' then 1 + (tail.takeWhile isPathChar).length else 0
          some (schemeLen + k + 6 + pathLen)

/-- Scanner behind `re.findall`: try a match at each position left to right,
non-overlapping, resuming after each match. Fuel is the text length; every
step consumes at least one character. -/
def findallGo : Nat → List Char → List (List Char)
  | 0, _ => []
  | fuel + 1, s =>
      match s with
      | [] => []
      | _ :: tail =>
          match matchOnionAt s with
          | some n => s.take n :: findallGo fuel (s.drop n)
          | none => findallGo fuel tail

/-- Embedding of `re.findall(pattern, response.text)` (urlfetch.py line 64). -/
def findall (s : List Char) : List (List Char) := findallGo s.length s

/-- Embedding of `re.sub(r'[\/\s<]+$', '', link.strip())` (urlfetch.py line 65):
strip surrounding whitespace, then drop the trailing run of slashes,
whitespace and left angle brackets. -/
def cleanLink (s : List Char) : List Char :=
  let t := pyStrip s
  (t.reverse.dropWhile fun c => c = '/' || c.isWhitespace || c = '<').reverse

/-- Code-point lexicographic order on character lists, as Python compares
strings. -/
def lexLe : List Char → List Char → Bool
  | [], _ => true
  | _ :: _, [] => false
  | a :: as, b :: bs =>
      if a.toNat < b.toNat then true
      else if b.toNat < a.toNat then false
      else lexLe as bs

/-- Insertion into a sorted list of strings (code-point order). -/
def insertSorted (x : String) : List String → List String
  | [] => [x]
  | y :: t => if lexLe x.toList y.toList then x :: y :: t else y :: insertSorted x t

/-- Insertion sort on strings, modelling Python `sorted`. -/
def sortStrings : List String → List String
  | [] => []
  | x :: t => insertSorted x (sortStrings t)

/-- Embedding of `get_onion_links_from_url` (urlfetch.py lines 60-71): the
network fetch is an injected outcome; any raised error yields `[]`, a fetched
text is scanned, cleaned, deduplicated and sorted. -/
def get_onion_links_from_url (fetched : Except String (List Char)) : List String :=
  match fetched with
  | .error _ => []
  | .ok text =>
      let raw_links := findall text
      let cleaned_links := raw_links.map fun link => (cleanLink link).asString
      sortStrings cleaned_links.dedup

/-- Embedding of `collect_onion_links` (urlfetch.py lines 73-79): concatenate
the per-source results and deduplicate (`list(set(all_links))`). -/
def collect_onion_links (fetches : List (Except String (List Char))) : List String :=
  let all_links := (fetches.map get_onion_links_from_url).flatten
  all_links.dedup

/-! ## Configuration loading -/

/-- A parsed config.json document; each key may be absent (Python
`config.get(key, [])`). -/
structure Config where
  sources : Option (List String)
  keywords : Option (List (List Char))
  scam_terms : Option (List (List Char))

/-- Embedding of `load_sources_from_config` (urlfetch.py lines 37-40). The
file read/parse outcome is the argument. The source has no exception handler
here, so a load error propagates (the module-level call at line 42 then
aborts the process). -/
def load_sources_from_config (readConfig : Except String Config) :
    Except String (List String) :=
  match readConfig with
  | .ok config => .ok (config.sources.getD [])
  | .error e => .error e

/-! ## filter.py: content filter -/

namespace OnionFilter

/-- Embedding of `OnionFilter.load_config` (filter.py lines 21-28): any load
error degrades to a pair of empty lists. -/
def load_config (readConfig : Except String Config) :
    List (List Char) × List (List Char) :=
  match readConfig with
  | .ok config => (config.keywords.getD [], config.scam_terms.getD [])
  | .error _ => ([], [])

/-- Result of `scan_url`: the tuple (title, matches, snippet). -/
structure ScanResult where
  title : List Char
  matchList : List (List Char)
  snippet : List Char
deriving DecidableEq, Repr

/-- The keyword match list (filter.py line 63): keep, in configuration order,
every keyword the whole-word case-insensitive regex finds in
`combined + ' ' + body`. -/
def scanMatches (keywords : List (List Char)) (combined body : List Char) :
    List (List Char) :=
  keywords.filter fun kw => wholeWordIC kw (combined ++ [' '] ++ body)

/-- The context snippet (filter.py lines 66-67):
`body[max(0, match_pos - 80) : match_pos + 120]` with `match_pos` the result
of `body.lower().find(kw.lower())` (which is `-1` when absent). -/
def mkSnippet (body kw : List Char) : List Char :=
  let match_pos : Int := pyFind (lowerText body) (lowerText kw)
  let start : Int := max 0 (match_pos - 80)
  let stop : Int := match_pos + 120
  (body.drop start.toNat).take (stop - start).toNat

/-- The successful-attempt body of `scan_url` (filter.py lines 61-68), given
the extracted (title, combined, body) texts. -/
def scanPage (keywords : List (List Char)) (title combined body : List Char) :
    ScanResult :=
  let ms := scanMatches keywords combined body
  let snippet :=
    match ms with
    | [] => []
    | kw :: _ => mkSnippet body kw
  { title := title, matchList := ms, snippet := snippet }

/-- Outcome of one fetch attempt for an address: a transport failure
(`requests.exceptions.RequestException`), any other raised error, or a page
whose text features were extracted by the document-model collaborator. -/
inductive FetchResult where
  | transportError
  | otherError
  | page (title combined body : List Char)

/-- The retry loop of `scan_url` (filter.py lines 57-75): `remaining`
attempts left, `i` the 0-based index of the current attempt; `env i` is the
outcome of attempt `i`. Returns the result together with the backoff sleeps
performed (`retry_delay + attempt * 2`, filter.py line 71). -/
def scanAttempts (keywords : List (List Char)) (retry_delay : Nat)
    (env : Nat → FetchResult) : Nat → Nat → ScanResult × List Nat
  | 0, _ => ({ title := [], matchList := [], snippet := [] }, [])
  | remaining + 1, i =>
      match env i with
      | .page t c b => (scanPage keywords t c b, [])
      | .otherError => ({ title := [], matchList := [], snippet := [] }, [])
      | .transportError =>
          let rest := scanAttempts keywords retry_delay env remaining (i + 1)
          (rest.1, (retry_delay + i * 2) :: rest.2)

/-- Embedding of `OnionFilter.scan_url` (filter.py lines 56-75): at most 3
attempts, starting at attempt index 0. -/
def scan_url (keywords : List (List Char)) (retry_delay : Nat)
    (env : Nat → FetchResult) : ScanResult × List Nat :=
  scanAttempts keywords retry_delay env 3 0

/-- One row of the `filtered_links` table (filter.py lines 33-38). -/
structure FilterRow where
  title : List Char
  matched_keywords : List Char
  context_snippet : List Char
deriving DecidableEq, Repr

/-- The `filtered_links` table, keyed by url. -/
abbrev FilterStore := List (String × FilterRow)

/-- Keyed SELECT on the filter store. -/
def getFilterRow : FilterStore → String → Option FilterRow
  | [], _ => none
  | (k, v) :: t, url => if k = url then some v else getFilterRow t url

/-- SQL `INSERT OR REPLACE` keyed on url: drop any row with this key, insert
the new one. -/
def upsertRow (store : FilterStore) (url : String) (row : FilterRow) : FilterStore :=
  (store.filter fun p => p.1 != url) ++ [(url, row)]

/-- Python `', '.join(matches)` (filter.py line 89). -/
def joinComma (l : List (List Char)) : List Char :=
  List.intercalate ((", ").toList) l

/-- The per-url body of `OnionFilter.run` (filter.py lines 84-90): write a
full-replace row only when the match list is nonempty, otherwise leave the
store untouched. -/
def runStep (store : FilterStore) (url : String) (r : ScanResult) : FilterStore :=
  if r.matchList = [] then store
  else
    upsertRow store url
      { title := r.title, matched_keywords := joinComma r.matchList,
        context_snippet := r.snippet }

/-- Embedding of `OnionFilter.run` over the alive urls (filter.py lines
77-92): scan each url and apply `runStep` in order. -/
def run (keywords : List (List Char)) (retry_delay : Nat) (urls : List String)
    (net : String → Nat → FetchResult) (store : FilterStore) : FilterStore :=
  urls.foldl (fun st url => runStep st url (scan_url keywords retry_delay (net url)).1) store

end OnionFilter

/-! ## Specification-side predicates -/

/-- A url has been observed alive by some event of the run. -/
def everAlive (url : String) (es : List ProbeEvent) : Prop :=
  ∃ e ∈ es, e.url = url ∧ check_url e.outcome = true

/-- The keyword occurs somewhere in the text as a case-insensitive whole word:
the lower-cased keyword sits at some position with a regex word boundary on
each side. -/
def OccursWholeWord (kw text : List Char) : Prop :=
  ∃ i, occursAt (lowerText kw) (lowerText text) i = true ∧
    boundaryAt text i = true ∧ boundaryAt text (i + kw.length) = true

/-- The normalization described by the C7 claim's parenthetical, written
from the claim's words rather than from the source, for comparison with the
source's `cleanLink`: trailing slashes/whitespace/broken-tag fragments
trimmed AND the path suffix removed (everything from the first slash after
the scheme separator). The source's cleanup keeps the path. -/
def claimNormalize (s : List Char) : List Char :=
  let t := cleanLink s
  match stripScheme t with
  | some (schemeLen, rest) => t.take schemeLen ++ rest.takeWhile (fun c => c != '/')
  | none => t.takeWhile (fun c => c != '/')

/-! ## Link store lemmas -/

theorem getRow_nil (url : String) : getRow [] url = none := rfl

theorem getRow_cons (k : String) (v : LinkRecord) (t : LinkStore) (url : String) :
    getRow ((k, v) :: t) url = if k = url then some v else getRow t url := rfl

theorem updateRows_nil (url : String) (f : LinkRecord → LinkRecord) :
    updateRows [] url f = [] := rfl

theorem updateRows_cons (k : String) (v : LinkRecord) (t : LinkStore) (url : String)
    (f : LinkRecord → LinkRecord) :
    updateRows ((k, v) :: t) url f =
      (k, if k = url then f v else v) :: updateRows t url f := rfl

theorem getRow_updateRows_self (store : LinkStore) (url : String)
    (f : LinkRecord → LinkRecord) (r : LinkRecord) (h : getRow store url = some r) :
    getRow (updateRows store url f) url = some (f r) := by
  induction store with
  | nil => simp [getRow_nil] at h
  | cons p t ih =>
      obtain ⟨k, v⟩ := p
      rw [getRow_cons] at h
      rw [updateRows_cons, getRow_cons]
      by_cases hk : k = url
      · subst hk
        rw [if_pos rfl] at h
        rw [if_pos rfl, if_pos rfl]
        injection h with h
        rw [h]
      · rw [if_neg hk] at h
        rw [if_neg hk]
        exact ih h

theorem getRow_updateRows_ne (store : LinkStore) (url u : String)
    (f : LinkRecord → LinkRecord) (h : u ≠ url) :
    getRow (updateRows store url f) u = getRow store u := by
  induction store with
  | nil => rfl
  | cons p t ih =>
      obtain ⟨k, v⟩ := p
      rw [updateRows_cons, getRow_cons, getRow_cons]
      by_cases hu : k = u
      · subst hu
        simp [h]
      · simp [hu, ih]

theorem getRow_append_single_self (store : LinkStore) (url : String) (r : LinkRecord)
    (h : getRow store url = none) : getRow (store ++ [(url, r)]) url = some r := by
  induction store with
  | nil => simp [getRow_cons]
  | cons p t ih =>
      obtain ⟨k, v⟩ := p
      rw [getRow_cons] at h
      rw [List.cons_append, getRow_cons]
      by_cases hk : k = url
      · simp [hk] at h
      · simp only [if_neg hk] at h ⊢
        exact ih h

theorem getRow_append_single_ne (store : LinkStore) (url u : String) (r : LinkRecord)
    (h : u ≠ url) : getRow (store ++ [(url, r)]) u = getRow store u := by
  induction store with
  | nil => rw [List.nil_append, getRow_cons, getRow_nil, if_neg (fun hh => h hh.symm)]
  | cons p t ih =>
      obtain ⟨k, v⟩ := p
      rw [List.cons_append, getRow_cons, getRow_cons]
      by_cases hu : k = u <;> simp [hu, ih]

/-- Full characterization of the probed url's row after one worker step. -/
theorem workerStep_getRow_self (store : LinkStore) (now : Int) (url : String) (o : Outcome) :
    getRow (workerStep store now url o) url =
      some (if check_url o then { status := .alive, lastSeen := some now }
            else { status := .dead,
                   lastSeen := match getRow store url with
                               | some r => r.lastSeen
                               | none => none }) := by
  unfold workerStep
  cases hrow : getRow store url with
  | some r =>
      by_cases ha : check_url o
      · simp [ha, getRow_updateRows_self store url _ r hrow]
      · simp [ha, getRow_updateRows_self store url _ r hrow]
  | none =>
      by_cases ha : check_url o <;>
        simp [ha, getRow_append_single_self store url _ hrow]

/-- A worker step leaves every other url's row untouched. -/
theorem workerStep_getRow_ne (store : LinkStore) (now : Int) (url u : String) (o : Outcome)
    (h : u ≠ url) : getRow (workerStep store now url o) u = getRow store u := by
  unfold workerStep
  cases hrow : getRow store url with
  | some r =>
      by_cases ha : check_url o <;>
        simp [ha, getRow_updateRows_ne store url u _ h]
  | none =>
      by_cases ha : check_url o <;>
        simp [ha, getRow_append_single_ne store url u _ h]

theorem runWorker_nil (store : LinkStore) : runWorker store [] = store := rfl

theorem runWorker_cons (store : LinkStore) (e : ProbeEvent) (es : List ProbeEvent) :
    runWorker store (e :: es) = runWorker (workerStep store e.now e.url e.outcome) es := rfl

theorem runWorker_append_single (store : LinkStore) (es : List ProbeEvent) (e : ProbeEvent) :
    runWorker store (es ++ [e]) =
      workerStep (runWorker store es) e.now e.url e.outcome := by
  simp [runWorker, List.foldl_append]

/-- Rows are never removed by the verifier; a probed url is present afterwards. -/
theorem runWorker_present (es : List ProbeEvent) (store : LinkStore) (url : String)
    (h : (getRow store url).isSome = true ∨ ∃ e ∈ es, e.url = url) :
    (getRow (runWorker store es) url).isSome = true := by
  induction es generalizing store with
  | nil =>
      rcases h with h | h
      · simpa [runWorker_nil] using h
      · simp at h
  | cons e es ih =>
      rw [runWorker_cons]
      by_cases hu : url = e.url
      · refine ih _ (Or.inl ?_)
        subst hu
        rw [workerStep_getRow_self]
        simp
      · refine ih _ ?_
        rcases h with h | h
        · exact Or.inl (by rwa [workerStep_getRow_ne store e.now e.url url e.outcome hu])
        · rcases h with ⟨e', he', hurl⟩
          rcases List.mem_cons.mp he' with he' | he'
          · exact absurd (he' ▸ hurl) (fun hh => hu hh.symm)
          · exact Or.inr ⟨e', he', hurl⟩

/-! ## Run-level lemmas about lastSeen -/

theorem everAlive_append_single (url : String) (es : List ProbeEvent) (e : ProbeEvent) :
    everAlive url (es ++ [e]) ↔
      (everAlive url es ∨ (e.url = url ∧ check_url e.outcome = true)) := by
  unfold everAlive
  constructor
  · rintro ⟨x, hx, hurl, hal⟩
    rcases List.mem_append.mp hx with hx | hx
    · exact Or.inl ⟨x, hx, hurl, hal⟩
    · have := List.mem_singleton.mp hx
      subst this
      exact Or.inr ⟨hurl, hal⟩
  · rintro (⟨x, hx, hurl, hal⟩ | ⟨hurl, hal⟩)
    · exact ⟨x, List.mem_append.mpr (Or.inl hx), hurl, hal⟩
    · exact ⟨e, List.mem_append.mpr (Or.inr (List.mem_singleton.mpr rfl)), hurl, hal⟩

/-- Starting from the empty store, a stored row's `last_seen` is non-null
exactly when some event of the run observed that url alive. -/
theorem runWorker_lastSeen_iff (url : String) :
    ∀ (es : List ProbeEvent) (r : LinkRecord),
      getRow (runWorker [] es) url = some r →
      ((∃ t, r.lastSeen = some t) ↔ everAlive url es) := by
  intro es
  induction es using List.reverseRecOn with
  | nil =>
      intro r h
      rw [runWorker_nil, getRow_nil] at h
      exact absurd h (by simp)
  | append_singleton es e ih =>
      intro r h
      rw [runWorker_append_single] at h
      by_cases hu : url = e.url
      · subst hu
        rw [workerStep_getRow_self] at h
        by_cases ha : check_url e.outcome
        · rw [if_pos ha] at h
          injection h with h
          rw [← h, everAlive_append_single]
          simp [ha]
        · rw [if_neg ha] at h
          injection h with h
          cases hrow : getRow (runWorker [] es) e.url with
          | some r0 =>
              rw [hrow] at h
              rw [← h, everAlive_append_single]
              have hiff := ih r0 hrow
              simp only [Bool.not_eq_true] at ha
              simp [ha, ← hiff]
          | none =>
              rw [hrow] at h
              rw [← h, everAlive_append_single]
              simp only [Bool.not_eq_true] at ha
              constructor
              · rintro ⟨t, ht⟩
                cases ht
              · rintro (hEA | ⟨_, hal⟩)
                · have hpres := runWorker_present es [] e.url
                    (Or.inr (by rcases hEA with ⟨x, hx, hxu, _⟩; exact ⟨x, hx, hxu⟩))
                  rw [hrow] at hpres
                  cases hpres
                · rw [ha] at hal
                  cases hal
      · rw [workerStep_getRow_ne _ _ _ _ _ hu] at h
        rw [everAlive_append_single, ih r h]
        constructor
        · exact Or.inl
        · rintro (hEA | ⟨hh, _⟩)
          · exact hEA
          · exact absurd hh.symm hu

/-- If every event time is at least `t1` and the url's row already carries a
`last_seen` at least `t1`, then after the run the row still carries a
`last_seen` at least `t1` (dead probes keep it, alive probes move it to the
event's time). -/
theorem runWorker_lastSeen_mono (t1 : Int) (url : String) :
    ∀ (es : List ProbeEvent) (store : LinkStore) (r : LinkRecord) (t' : Int),
      getRow store url = some r → r.lastSeen = some t' → t1 ≤ t' →
      (∀ e ∈ es, t1 ≤ e.now) →
      ∃ r' t2, getRow (runWorker store es) url = some r' ∧
        r'.lastSeen = some t2 ∧ t1 ≤ t2 := by
  intro es
  induction es with
  | nil =>
      intro store r t' hrow hseen ht _
      exact ⟨r, t', by rwa [runWorker_nil], hseen, ht⟩
  | cons e es ih =>
      intro store r t' hrow hseen ht hes
      rw [runWorker_cons]
      by_cases hu : url = e.url
      · subst hu
        have hstep := workerStep_getRow_self store e.now e.url e.outcome
        by_cases ha : check_url e.outcome
        · rw [if_pos ha] at hstep
          exact ih _ _ e.now hstep rfl (hes e (List.mem_cons_self e es))
            (fun e' he' => hes e' (List.mem_cons_of_mem e he'))
        · rw [if_neg ha, hrow] at hstep
          exact ih _ _ t' hstep hseen ht
            (fun e' he' => hes e' (List.mem_cons_of_mem e he'))
      · have hkeep : getRow (workerStep store e.now e.url e.outcome) url = some r := by
          rw [workerStep_getRow_ne _ _ _ _ _ hu, hrow]
        exact ih _ _ t' hkeep hseen ht
          (fun e' he' => hes e' (List.mem_cons_of_mem e he'))

/-! ## Sweeper lemmas -/

theorem sweepPred_iff (cutoff : Int) (r : LinkRecord) :
    sweepPred cutoff r = true ↔
      (r.status = Status.dead ∧
        (r.lastSeen = none ∨ ∃ t, r.lastSeen = some t ∧ t < cutoff)) := by
  obtain ⟨st, ls⟩ := r
  cases st <;> cases ls <;> simp [sweepPred]

/-! ## Whole-word matching lemmas -/

theorem isWordAt_of_le (text : List Char) (m : Nat) (hm : text.length ≤ m) :
    isWordAt text m = false := by
  unfold isWordAt
  rw [List.getElem?_eq_none hm]

theorem prevIsWordAt_succ (text : List Char) (j : Nat) :
    prevIsWordAt text (j + 1) = isWordAt text j := rfl

theorem boundaryAt_of_gt (text : List Char) (i : Nat) (hi : text.length < i) :
    boundaryAt text i = false := by
  obtain ⟨j, rfl⟩ : ∃ j, i = j + 1 := ⟨i - 1, by omega⟩
  unfold boundaryAt
  rw [prevIsWordAt_succ, isWordAt_of_le text j (by omega),
    isWordAt_of_le text (j + 1) (by omega)]
  rfl

theorem wholeWordIC_iff (kw text : List Char) :
    wholeWordIC kw text = true ↔ OccursWholeWord kw text := by
  unfold wholeWordIC OccursWholeWord
  rw [List.any_eq_true]
  constructor
  · rintro ⟨i, _, hcond⟩
    simp only [Bool.and_eq_true] at hcond
    exact ⟨i, hcond.1.1, hcond.1.2, hcond.2⟩
  · rintro ⟨i, h1, h2, h3⟩
    refine ⟨i, List.mem_range.mpr ?_, by simp [h1, h2, h3]⟩
    by_contra hgt
    rw [boundaryAt_of_gt text i (by omega)] at h2
    cases h2

theorem scanMatches_mem (kws : List (List Char)) (combined body kw : List Char) :
    kw ∈ OnionFilter.scanMatches kws combined body ↔
      (kw ∈ kws ∧ OccursWholeWord kw (combined ++ [' '] ++ body)) := by
  unfold OnionFilter.scanMatches
  rw [List.mem_filter, wholeWordIC_iff]

/-! ## Filter store lemmas -/

theorem getFilterRow_nil (url : String) : OnionFilter.getFilterRow [] url = none := rfl

theorem getFilterRow_cons (k : String) (v : OnionFilter.FilterRow)
    (t : OnionFilter.FilterStore) (url : String) :
    OnionFilter.getFilterRow ((k, v) :: t) url =
      if k = url then some v else OnionFilter.getFilterRow t url := rfl

theorem getFilterRow_append (l1 l2 : OnionFilter.FilterStore) (u : String) :
    OnionFilter.getFilterRow (l1 ++ l2) u =
      match OnionFilter.getFilterRow l1 u with
      | some v => some v
      | none => OnionFilter.getFilterRow l2 u := by
  induction l1 with
  | nil => rfl
  | cons p t ih =>
      obtain ⟨k, v⟩ := p
      rw [List.cons_append, getFilterRow_cons, getFilterRow_cons]
      by_cases hk : k = u <;> simp [hk, ih]

theorem getFilterRow_filter_self (store : OnionFilter.FilterStore) (url : String) :
    OnionFilter.getFilterRow (store.filter fun p => p.1 != url) url = none := by
  induction store with
  | nil => rfl
  | cons p t ih =>
      obtain ⟨k, v⟩ := p
      rw [List.filter_cons]
      by_cases hk : k = url
      · simp only [hk, bne_self_eq_false, Bool.false_eq_true, if_false]
        exact ih
      · simp only [bne_iff_ne, ne_eq, hk, not_false_eq_true, if_pos]
        rw [getFilterRow_cons, if_neg hk]
        exact ih

theorem getFilterRow_filter_ne (store : OnionFilter.FilterStore) (url u : String)
    (h : u ≠ url) :
    OnionFilter.getFilterRow (store.filter fun p => p.1 != url) u =
      OnionFilter.getFilterRow store u := by
  induction store with
  | nil => rfl
  | cons p t ih =>
      obtain ⟨k, v⟩ := p
      rw [List.filter_cons, getFilterRow_cons]
      by_cases hk : k = url
      · have hku : ¬ (k = u) := fun hh => h (hh ▸ hk)
        simp only [hk, bne_self_eq_false, Bool.false_eq_true, if_false]
        rw [if_neg (fun hh : url = u => h hh.symm)]
        exact ih
      · simp only [bne_iff_ne, ne_eq, hk, not_false_eq_true, if_pos]
        rw [getFilterRow_cons]
        by_cases hku : k = u
        · rw [if_pos hku, if_pos hku]
        · rw [if_neg hku, if_neg hku]
          exact ih

theorem getFilterRow_upsertRow_self (store : OnionFilter.FilterStore) (url : String)
    (row : OnionFilter.FilterRow) :
    OnionFilter.getFilterRow (OnionFilter.upsertRow store url row) url = some row := by
  unfold OnionFilter.upsertRow
  rw [getFilterRow_append, getFilterRow_filter_self]
  rw [getFilterRow_cons, if_pos rfl]

theorem getFilterRow_upsertRow_ne (store : OnionFilter.FilterStore) (url u : String)
    (row : OnionFilter.FilterRow) (h : u ≠ url) :
    OnionFilter.getFilterRow (OnionFilter.upsertRow store url row) u =
      OnionFilter.getFilterRow store u := by
  unfold OnionFilter.upsertRow
  rw [getFilterRow_append, getFilterRow_filter_ne store url u h]
  cases hrow : OnionFilter.getFilterRow store u with
  | some v => rfl
  | none =>
      rw [getFilterRow_cons, if_neg (fun hh => h hh.symm), getFilterRow_nil]

/-! ## Claim theorems -/

/-- C1: the Liveness Verifier records ALIVE exactly when a response is
received with status code < 500, and DEAD otherwise (any >= 500 response or
any raised probe exception); from an empty Link Store, probing A (HTTP 200),
B (HTTP 503) and C (timeout) yields A alive with lastSeen = now, and B, C
dead with lastSeen null. -/
theorem claim_C1 :
    (∀ code, check_url (Outcome.response code) = decide (code < 500))
  ∧ check_url Outcome.failure = false
  ∧ (∀ (store : LinkStore) (now : Int) (url : String) (o : Outcome),
      ∃ r, getRow (workerStep store now url o) url = some r ∧
        r.status = (if check_url o then Status.alive else Status.dead))
  ∧ (∀ now : Int,
      runWorker []
          [⟨now, ("A"), Outcome.response 200⟩, ⟨now, ("B"), Outcome.response 503⟩,
           ⟨now, ("C"), Outcome.failure⟩] =
        [(("A"), ⟨Status.alive, some now⟩), (("B"), ⟨Status.dead, none⟩),
         (("C"), ⟨Status.dead, none⟩)]) := by
  refine ⟨fun _ => rfl, rfl, ?_, fun now => rfl⟩
  intro store now url o
  refine ⟨_, workerStep_getRow_self store now url o, ?_⟩
  by_cases ha : check_url o <;> simp [ha]

/-- C2: lastSeen is non-null iff the record has ever been observed alive,
a DEAD probe leaves lastSeen untouched, an ALIVE probe overwrites it with
the probe's time, and lastSeen never decreases across a run whose event
times are at least the stored value. -/
theorem claim_C2 :
    (∀ (store : LinkStore) (now : Int) (url : String) (o : Outcome) (r : LinkRecord),
        check_url o = false → getRow store url = some r →
        ∃ r', getRow (workerStep store now url o) url = some r' ∧
          r'.status = Status.dead ∧ r'.lastSeen = r.lastSeen)
  ∧ (∀ (store : LinkStore) (now : Int) (url : String) (o : Outcome),
        check_url o = true →
        ∃ r', getRow (workerStep store now url o) url = some r' ∧
          r'.status = Status.alive ∧ r'.lastSeen = some now)
  ∧ (∀ (es : List ProbeEvent) (url : String) (r : LinkRecord),
        getRow (runWorker [] es) url = some r →
        ((∃ t, r.lastSeen = some t) ↔ everAlive url es))
  ∧ (∀ (es : List ProbeEvent) (store : LinkStore) (url : String) (r : LinkRecord)
        (t1 t' : Int),
        getRow store url = some r → r.lastSeen = some t' → t1 ≤ t' →
        (∀ e ∈ es, t1 ≤ e.now) →
        ∃ r' t2, getRow (runWorker store es) url = some r' ∧
          r'.lastSeen = some t2 ∧ t1 ≤ t2) := by
  refine ⟨?_, ?_, ?_, ?_⟩
  · intro store now url o r ho hrow
    refine ⟨{ status := Status.dead, lastSeen := r.lastSeen }, ?_, rfl, rfl⟩
    rw [workerStep_getRow_self, ho, hrow]
    rfl
  · intro store now url o ho
    refine ⟨{ status := Status.alive, lastSeen := some now }, ?_, rfl, rfl⟩
    rw [workerStep_getRow_self, ho]
    rfl
  · exact fun es url r h => runWorker_lastSeen_iff url es r h
  · exact fun es store url r t1 t' h1 h2 h3 h4 =>
      runWorker_lastSeen_mono t1 url es store r t' h1 h2 h3 h4

/-- Witness for C2 at concrete inputs: a dead probe on an existing alive
record keeps lastSeen = 5; an alive probe at time 9 sets lastSeen = 9; a
one-event alive run makes lastSeen non-null; a dead-then-alive run keeps
lastSeen at least 5. -/
theorem claim_C2_witness :
    (∃ r', getRow (workerStep [(("A"), ⟨Status.alive, some 5⟩)] 9 ("A") Outcome.failure)
        ("A") = some r' ∧ r'.status = Status.dead ∧ r'.lastSeen = some 5)
  ∧ (∃ r', getRow (workerStep [] 9 ("A") (Outcome.response 200)) ("A") = some r' ∧
        r'.status = Status.alive ∧ r'.lastSeen = some 9)
  ∧ ((∃ t, (⟨Status.alive, some (5 : Int)⟩ : LinkRecord).lastSeen = some t) ↔
        everAlive ("A") [⟨5, ("A"), Outcome.response 200⟩])
  ∧ (∃ r' t2,
        getRow (runWorker [(("A"), ⟨Status.alive, some 5⟩)]
            [⟨7, ("A"), Outcome.failure⟩, ⟨9, ("A"), Outcome.response 200⟩]) ("A") =
          some r' ∧ r'.lastSeen = some t2 ∧ (5 : Int) ≤ t2) := by
  refine ⟨claim_C2.1 _ 9 _ Outcome.failure ⟨Status.alive, some 5⟩ rfl rfl,
          claim_C2.2.1 [] 9 ("A") (Outcome.response 200) rfl,
          claim_C2.2.2.1 [⟨5, ("A"), Outcome.response 200⟩] ("A")
            ⟨Status.alive, some 5⟩ rfl,
          claim_C2.2.2.2 _ _ ("A") ⟨Status.alive, some 5⟩ 5 5 rfl rfl le_rfl ?_⟩
  decide

/-- C3: the Retention Sweeper deletes a record iff it is DEAD and its
lastSeen is null or older than now minus the threshold; ALIVE records all
survive unchanged and in place; the logged count equals the number of
deleted rows. -/
theorem claim_C3 (store : LinkStore) (now days : Int) :
    (∀ (url : String) (r : LinkRecord),
        (url, r) ∈ (clean_old_links store now days).1 ↔
          ((url, r) ∈ store ∧
            ¬ (r.status = Status.dead ∧
               (r.lastSeen = none ∨ ∃ t, r.lastSeen = some t ∧ t < now - days))))
  ∧ (∀ (url : String) (r : LinkRecord), r.status = Status.alive →
        ((url, r) ∈ (clean_old_links store now days).1 ↔ (url, r) ∈ store))
  ∧ (clean_old_links store now days).1.Sublist store
  ∧ ((clean_old_links store now days).2 + (clean_old_links store now days).1.length
        = store.length) := by
  have hfst : (clean_old_links store now days).1 =
      store.filter fun p => ! sweepPred (now - days) p.2 := rfl
  have hsnd : (clean_old_links store now days).2 =
      (store.filter fun p => sweepPred (now - days) p.2).length := rfl
  refine ⟨?_, ?_, ?_, ?_⟩
  · intro url r
    rw [hfst, List.mem_filter]
    constructor
    · rintro ⟨hm, hb⟩
      refine ⟨hm, fun hc => ?_⟩
      rw [(sweepPred_iff (now - days) r).mpr hc] at hb
      exact absurd hb (by simp)
    · rintro ⟨hm, hc⟩
      refine ⟨hm, ?_⟩
      cases hsp : sweepPred (now - days) r
      · rfl
      · exact absurd ((sweepPred_iff _ _).mp hsp) hc
  · intro url r hst
    have hsp : sweepPred (now - days) r = false := by
      cases hsp : sweepPred (now - days) r
      · rfl
      · have hc := (sweepPred_iff _ _).mp hsp
        rw [hst] at hc
        exact absurd hc.1 (by simp)
    rw [hfst, List.mem_filter]
    simp [hsp]
  · rw [hfst]
    exact List.filter_sublist store
  · rw [hfst, hsnd]
    have h := List.length_eq_length_filter_add
      (l := store) (fun p => sweepPred (now - days) p.2)
    simpa using h.symm

/-- Witness for C3 at a concrete store: the old ALIVE record survives, the
never-seen DEAD record satisfies the deletion predicate. -/
theorem claim_C3_witness :
    ((("A"), (⟨Status.alive, some 1⟩ : LinkRecord)) ∈
        (clean_old_links
          [(("A"), ⟨Status.alive, some 1⟩), (("B"), ⟨Status.dead, none⟩)] 100 7).1 ↔
      (("A"), (⟨Status.alive, some 1⟩ : LinkRecord)) ∈
        [(("A"), ⟨Status.alive, some 1⟩), (("B"), ⟨Status.dead, none⟩)]) :=
  (claim_C3 _ 100 7).2.1 ("A") ⟨Status.alive, some 1⟩ rfl

/-- Counterexample for C4 as stated: the code searches `combined + ' ' + body`
(filter.py line 63), so the keyword "a b" is matched for combined = "a",
body = "b" although it occurs as a whole word in neither the combined text
nor the body text. -/
theorem claim_C4_cex :
    OnionFilter.scanMatches [("a b").toList] (("a").toList) (("b").toList) =
      [("a b").toList]
  ∧ wholeWordIC (("a b").toList) (("a").toList) = false
  ∧ wholeWordIC (("a b").toList) (("b").toList) = false := by
  decide

/-- C4 (amended): a keyword is matched iff it occurs as a whole-word,
case-insensitive substring of the space-joined concatenation of the combined
text and the body text (which coincides with occurring in one of the two
texts except when the occurrence spans the joining space, possible only for
keywords containing a space); in particular a document containing "market"
as a whole word matches the keyword "market", and one containing only
"supermarket" does not. -/
theorem claim_C4 (kws : List (List Char)) (combined body kw : List Char) :
    (kw ∈ OnionFilter.scanMatches kws combined body ↔
        (kw ∈ kws ∧ OccursWholeWord kw (combined ++ [' '] ++ body)))
  ∧ ("market").toList ∈
      OnionFilter.scanMatches [("market").toList] []
        (("visit our market today").toList)
  ∧ ("market").toList ∉
      OnionFilter.scanMatches [("market").toList] []
        (("the supermarket here").toList) :=
  ⟨scanMatches_mem kws combined body kw, by decide, by decide⟩

/-- C6: when the scan matched at least one keyword and the first matched
keyword occurs (case-insensitively) in the body at position p, the snippet
is the window of the body from p - 80 (clamped at the text start) to
p + 120 (clamped at the text end by the slice itself). -/
theorem claim_C6 (kws : List (List Char)) (title combined body kw : List Char)
    (rest : List (List Char)) (p : Nat)
    (hm : (OnionFilter.scanPage kws title combined body).matchList = kw :: rest)
    (hp : pyFind (lowerText body) (lowerText kw) = (p : Int)) :
    (OnionFilter.scanPage kws title combined body).snippet =
      (body.drop (p - 80)).take (p + 120 - (p - 80)) := by
  have hm' : OnionFilter.scanMatches kws combined body = kw :: rest := hm
  show (match OnionFilter.scanMatches kws combined body with
        | [] => ([] : List Char)
        | kw :: _ => OnionFilter.mkSnippet body kw) = _
  rw [hm']
  show OnionFilter.mkSnippet body kw = _
  simp only [OnionFilter.mkSnippet]
  rw [hp]
  have h1 : (max 0 ((p : Int) - 80)).toNat = p - 80 := by omega
  have h2 : (((p : Int) + 120) - max 0 ((p : Int) - 80)).toNat = p + 120 - (p - 80) := by
    omega
  rw [h1, h2]

/-- Witness for C6 on the spec's own scenario: body "visit our market today",
keyword list ["market"], match at position 10, window clamped at the start. -/
theorem claim_C6_witness :
    (OnionFilter.scanPage [("market").toList] [] []
        (("visit our market today").toList)).matchList = [("market").toList]
  ∧ pyFind (lowerText (("visit our market today").toList))
        (lowerText (("market").toList)) = ((10 : Nat) : Int)
  ∧ (OnionFilter.scanPage [("market").toList] [] []
        (("visit our market today").toList)).snippet =
      (((("visit our market today").toList)).drop (10 - 80)).take
        (10 + 120 - (10 - 80)) :=
  ⟨by decide, by decide,
   claim_C6 [("market").toList] [] [] (("visit our market today").toList)
     (("market").toList) [] 10 (by decide) (by decide)⟩

/-- Counterexample for C10 as stated: the match list is a plain filter of
the configured keyword list (filter.py line 63), so a keyword configured
twice appears twice among the matched terms — they are not de-duplicated. -/
theorem claim_C10_cex :
    OnionFilter.scanMatches [("a").toList, ("a").toList] (("a").toList) [] =
      [("a").toList, ("a").toList]
  ∧ ¬ (OnionFilter.scanMatches [("a").toList, ("a").toList] (("a").toList) []).Nodup := by
  decide

/-- C10 (amended): the match list consists of exactly the configured
keywords that match, in configuration order (a sublist of the configured
list), one entry per configured keyword occurrence — duplicate-free
whenever the configured keyword list is duplicate-free. -/
theorem claim_C10 (kws : List (List Char)) (combined body : List Char) :
    (∀ kw, kw ∈ OnionFilter.scanMatches kws combined body ↔
        (kw ∈ kws ∧ OccursWholeWord kw (combined ++ [' '] ++ body)))
  ∧ (OnionFilter.scanMatches kws combined body).Sublist kws
  ∧ (kws.Nodup → (OnionFilter.scanMatches kws combined body).Nodup) := by
  refine ⟨fun kw => scanMatches_mem kws combined body kw, ?_, ?_⟩
  · exact List.filter_sublist kws
  · exact fun h => List.Nodup.filter _ h

/-- Witness for C10 on a duplicate-free keyword list. -/
theorem claim_C10_witness :
    ([("a").toList, ("b").toList] : List (List Char)).Nodup
  ∧ (OnionFilter.scanMatches [("a").toList, ("b").toList] (("a").toList) []).Nodup :=
  ⟨by decide,
   (claim_C10 [("a").toList, ("b").toList] (("a").toList) []).2.2 (by decide)⟩

/-- Counterexample for C5 as stated: the collector/verifier's source-list
load (urlfetch.py lines 37-40) has no exception handler, so a failing
configuration read propagates the error instead of degrading to an empty
source list (and, being called at module level on line 42, aborts the
process). -/
theorem claim_C5_cex :
    load_sources_from_config (Except.error ("config missing")) =
        Except.error ("config missing")
  ∧ load_sources_from_config (Except.error ("config missing")) ≠
        Except.ok [] :=
  ⟨rfl, by simp [load_sources_from_config]⟩

/-- C5 (amended): only the Content Filter's configuration load degrades to
empty keyword/pattern lists on a load error; the collector/verifier's
source-list load propagates the error instead of degrading. -/
theorem claim_C5 (e : String) :
    OnionFilter.load_config (Except.error e) = ([], [])
  ∧ load_sources_from_config (Except.error e) = Except.error e :=
  ⟨rfl, rfl⟩

/-- Counterexample for C7 as stated: the cleanup at urlfetch.py line 65
trims only trailing slashes, whitespace and left angle brackets — path
suffixes are kept — so one source carrying the same host under two paths
yields two output addresses that are distinct as produced yet textually
equal after the claim's path-removing normalization. -/
theorem claim_C7_cex :
    collect_onion_links
        [Except.ok
          (("see http://aaaaaaaaaa.onion/x and http://aaaaaaaaaa.onion/y").toList)] =
      [("http://aaaaaaaaaa.onion/x"), ("http://aaaaaaaaaa.onion/y")]
  ∧ ("http://aaaaaaaaaa.onion/x") ≠ ("http://aaaaaaaaaa.onion/y")
  ∧ claimNormalize (("http://aaaaaaaaaa.onion/x").toList) =
      claimNormalize (("http://aaaaaaaaaa.onion/y").toList) := by
  decide

/-- C7 (amended): the Collector's output, deduplicated over the addresses
as extracted (trailing slashes/whitespace/broken-tag fragments trimmed,
path suffixes kept), carries no two textually-equal entries even if an
address recurs within or across sources; an erroring source yields zero
results, and removing an erroring source from the batch leaves the output
unchanged (so a per-source failure never affects, let alone aborts, the
rest of the batch). -/
theorem claim_C7 (fetches pre post : List (Except String (List Char))) (e : String) :
    (collect_onion_links fetches).Nodup
  ∧ get_onion_links_from_url (Except.error e) = []
  ∧ collect_onion_links (pre ++ Except.error e :: post) =
      collect_onion_links (pre ++ post) := by
  refine ⟨List.nodup_dedup _, rfl, ?_⟩
  unfold collect_onion_links
  simp [get_onion_links_from_url]

/-- C8: the scan makes at most 3 attempts (the result only depends on the
first three attempt outcomes); each transport failure at attempt i sleeps
retry_delay + 2i before the next attempt; a non-transport failure stops
immediately; both exhaustion paths return the empty result instead of
raising. -/
theorem claim_C8 (kws : List (List Char)) (d : Nat) (env env2 : Nat → OnionFilter.FetchResult) :
    (∀ t c b, env 0 = .page t c b →
        OnionFilter.scan_url kws d env = (OnionFilter.scanPage kws t c b, []))
  ∧ (env 0 = .otherError →
        OnionFilter.scan_url kws d env = (⟨[], [], []⟩, []))
  ∧ (∀ t c b, env 0 = .transportError → env 1 = .page t c b →
        OnionFilter.scan_url kws d env = (OnionFilter.scanPage kws t c b, [d]))
  ∧ (env 0 = .transportError → env 1 = .otherError →
        OnionFilter.scan_url kws d env = (⟨[], [], []⟩, [d]))
  ∧ (∀ t c b, env 0 = .transportError → env 1 = .transportError → env 2 = .page t c b →
        OnionFilter.scan_url kws d env = (OnionFilter.scanPage kws t c b, [d, d + 2]))
  ∧ (env 0 = .transportError → env 1 = .transportError → env 2 = .transportError →
        OnionFilter.scan_url kws d env = (⟨[], [], []⟩, [d, d + 2, d + 4]))
  ∧ ((∀ i, i < 3 → env i = env2 i) →
        OnionFilter.scan_url kws d env = OnionFilter.scan_url kws d env2) := by
  refine ⟨?_, ?_, ?_, ?_, ?_, ?_, ?_⟩
  · intro t c b h0
    simp [OnionFilter.scan_url, OnionFilter.scanAttempts, h0]
  · intro h0
    simp [OnionFilter.scan_url, OnionFilter.scanAttempts, h0]
  · intro t c b h0 h1
    simp [OnionFilter.scan_url, OnionFilter.scanAttempts, h0, h1]
  · intro h0 h1
    simp [OnionFilter.scan_url, OnionFilter.scanAttempts, h0, h1]
  · intro t c b h0 h1 h2
    simp [OnionFilter.scan_url, OnionFilter.scanAttempts, h0, h1, h2]
  · intro h0 h1 h2
    simp [OnionFilter.scan_url, OnionFilter.scanAttempts, h0, h1, h2]
  · intro h
    have h0 := h 0 (by omega)
    have h1 := h 1 (by omega)
    have h2 := h 2 (by omega)
    cases he0 : env2 0 with
    | transportError =>
        cases he1 : env2 1 with
        | transportError =>
            cases he2 : env2 2 <;>
              simp [OnionFilter.scan_url, OnionFilter.scanAttempts, h0, h1, h2,
                he0, he1, he2]
        | otherError =>
            simp [OnionFilter.scan_url, OnionFilter.scanAttempts, h0, h1, he0, he1]
        | page t c b =>
            simp [OnionFilter.scan_url, OnionFilter.scanAttempts, h0, h1, he0, he1]
    | otherError => simp [OnionFilter.scan_url, OnionFilter.scanAttempts, h0, he0]
    | page t c b => simp [OnionFilter.scan_url, OnionFilter.scanAttempts, h0, he0]

/-- Witness for C8: two transport failures then a page; the scan returns the
page's result after sleeping d and d + 2; and an all-failure environment
agreeing with another on the first three attempts gives the same outcome. -/
theorem claim_C8_witness :
    OnionFilter.scan_url [] 3
        (fun i => if i < 2 then OnionFilter.FetchResult.transportError
                  else OnionFilter.FetchResult.page [] [] []) =
      (OnionFilter.scanPage [] [] [] [], [3, 3 + 2])
  ∧ OnionFilter.scan_url [] 3 (fun _ => OnionFilter.FetchResult.transportError) =
      (⟨[], [], []⟩, [3, 3 + 2, 3 + 4]) :=
  ⟨(claim_C8 [] 3 _ (fun _ => OnionFilter.FetchResult.transportError)).2.2.2.2.1
      [] [] [] rfl rfl rfl,
   (claim_C8 [] 3 (fun _ => OnionFilter.FetchResult.transportError)
      (fun _ => OnionFilter.FetchResult.transportError)).2.2.2.2.2.1 rfl rfl rfl⟩

/-- C9: a scan with zero matches leaves the whole Filter Store untouched;
a scan with at least one match writes a full-replace row keyed on the
address and leaves every other address's row unchanged. -/
theorem claim_C9 (store : OnionFilter.FilterStore) (url : String)
    (r : OnionFilter.ScanResult) :
    (r.matchList = [] → OnionFilter.runStep store url r = store)
  ∧ (r.matchList ≠ [] →
      OnionFilter.getFilterRow (OnionFilter.runStep store url r) url =
        some { title := r.title,
               matched_keywords := OnionFilter.joinComma r.matchList,
               context_snippet := r.snippet }
    ∧ ∀ u, u ≠ url →
        OnionFilter.getFilterRow (OnionFilter.runStep store url r) u =
          OnionFilter.getFilterRow store u) := by
  constructor
  · intro h
    unfold OnionFilter.runStep
    rw [if_pos h]
  · intro h
    constructor
    · unfold OnionFilter.runStep
      rw [if_neg h]
      exact getFilterRow_upsertRow_self store url _
    · intro u hu
      unfold OnionFilter.runStep
      rw [if_neg h]
      exact getFilterRow_upsertRow_ne store url u _ hu

/-- Witness for C9: a no-match scan leaves the empty store empty; a one-match
scan writes exactly the row for that address. -/
theorem claim_C9_witness :
    OnionFilter.runStep [] ("A") { title := [], matchList := [], snippet := [] } = []
  ∧ OnionFilter.getFilterRow
      (OnionFilter.runStep [] ("A")
        { title := [], matchList := [("k").toList], snippet := [] }) ("A") =
      some { title := [],
             matched_keywords := OnionFilter.joinComma [("k").toList],
             context_snippet := [] } :=
  ⟨(claim_C9 [] ("A") { title := [], matchList := [], snippet := [] }).1 rfl,
   ((claim_C9 [] ("A")
      { title := [], matchList := [("k").toList], snippet := [] }).2 (by decide)).1⟩

end Onion
